import Mathlib

/-!
Shallow embedding of the request-environment normalization engine
(src/src/Wt/WEnvironment.C) and verification of its specification.

C++ std::string values are modelled as List Char; the per-request
snapshot WEnvironment and the request abstraction WebRequest are records;
the std::map cookie container is modelled as an association list with
overwrite-on-insert, observed through a lookup function.
-/

namespace WtEnv

/-! ### Basic string utilities (boost::trim, boost::split, std::string::find) -/

/-- The whitespace characters stripped by boost::trim (std::isspace, C locale). -/
def isSpaceChar (c : Char) : Bool :=
  c == ' ' || c == '\t' || c == '\n' || c == '\r' || c == Char.ofNat 11 || c == Char.ofNat 12

/-- boost::trim: strip leading and trailing whitespace. -/
def trimStr (l : List Char) : List Char :=
  ((l.dropWhile isSpaceChar).reverse.dropWhile isSpaceChar).reverse

/-- Index of the first character satisfying p, as std::string::find_first_of. -/
def findPredIdx (p : Char → Bool) : List Char → Option Nat
  | [] => none
  | c :: rest => if p c then some 0 else (findPredIdx p rest).map (fun i => i + 1)

/-- std::string::find(char): index of the first occurrence of a character. -/
def findCharIdx (ch : Char) (l : List Char) : Option Nat :=
  findPredIdx (fun c => c == ch) l

/-- std::string::find(str): index of the first occurrence of a substring. -/
def findSubstrIdx (needle : List Char) : List Char → Option Nat
  | [] => if needle = [] then some 0 else none
  | c :: rest =>
    if needle <+: c :: rest then some 0
    else (findSubstrIdx needle rest).map (fun i => i + 1)

/-- std::string::rfind(char): index of the last occurrence of a character. -/
def rfindCharIdx (ch : Char) (l : List Char) : Option Nat :=
  (findCharIdx ch l.reverse).map (fun j => l.length - 1 - j)

/-- boost::split on a single separator character: like List.splitOn, always
yields at least one (possibly empty) group. -/
def splitOnChar (sep : Char) : List Char → List (List Char)
  | [] => [[]]
  | c :: rest =>
    if c == sep then [] :: splitOnChar sep rest
    else
      match splitOnChar sep rest with
      | [] => [[c]]
      | g :: gs => (c :: g) :: gs

/-! ### Numeric parsing (boost::lexical_cast) -/

/-- Strip an optional leading sign; returns (isNegative, rest). -/
def splitSign : List Char → Bool × List Char
  | '-' :: r => (true, r)
  | '+' :: r => (false, r)
  | l => (false, l)

def allDigits (l : List Char) : Bool := l.all (fun c => c.isDigit)

def natOfDigits (l : List Char) : Nat := l.foldl (fun a c => 10 * a + (c.toNat - 48)) 0

/-- Modelled from the spec: boost::lexical_cast of int (library code, not part of
this repository slice).  Parses an optional sign followed by at least one digit,
consuming the whole string, and fails (as the cast throws) on any other input or
when the value does not fit a 32-bit int. -/
def parseCppInt (l : List Char) : Option Int :=
  let (neg, r) := splitSign l
  if r ≠ [] ∧ allDigits r then
    let v : Int := if neg then -(natOfDigits r : Int) else (natOfDigits r : Int)
    if -2147483648 ≤ v ∧ v ≤ 2147483647 then some v else none
  else none

/-- Modelled from the spec: boost::lexical_cast of double (library code, not part
of this repository slice).  Accepts an optional sign, a mantissa of digits with an
optional decimal point, and an optional exponent part, consuming the whole string;
fails on any other input.  The value is represented exactly as a rational. -/
def parseCppDouble (l : List Char) : Option ℚ :=
  let (neg, rest) := splitSign l
  let mantExp : List Char × Option (List Char) :=
    match findPredIdx (fun c => c == 'e' || c == 'E') rest with
    | some i => (rest.take i, some (rest.drop (i + 1)))
    | none => (rest, none)
  let mantVal : Option ℚ :=
    match findCharIdx '.' mantExp.1 with
    | some i =>
      let ip := mantExp.1.take i
      let fp := mantExp.1.drop (i + 1)
      if ip = [] ∧ fp = [] then none
      else if allDigits ip ∧ allDigits fp then
        some ((natOfDigits ip : ℚ) + (natOfDigits fp : ℚ) / ((10 : ℚ) ^ fp.length))
      else none
    | none =>
      if mantExp.1 ≠ [] ∧ allDigits mantExp.1 then some (natOfDigits mantExp.1 : ℚ) else none
  let expVal : Option Int :=
    match mantExp.2 with
    | none => some 0
    | some e =>
      let (eneg, ed) := splitSign e
      if ed ≠ [] ∧ allDigits ed then
        some (if eneg then -(natOfDigits ed : Int) else (natOfDigits ed : Int))
      else none
  match mantVal, expVal with
  | some m, some ex => some ((if neg then -m else m) * (10 : ℚ) ^ ex)
  | _, _ => none

/-! ### Percent encoding / decoding -/

def isHexChar (c : Char) : Bool :=
  c.isDigit || (decide ('a' ≤ c) && decide (c ≤ 'f')) || (decide ('A' ≤ c) && decide (c ≤ 'F'))

def hexVal (c : Char) : Nat :=
  if c.isDigit then c.toNat - 48
  else if decide ('a' ≤ c) && decide (c ≤ 'f') then c.toNat - 87
  else if decide ('A' ≤ c) && decide (c ≤ 'F') then c.toNat - 55
  else 0

/-- Modelled from the spec: the percent-decoding routine Wt::Utils::urlDecode,
whose source is not part of this repository slice; the spec says cookie names and
values are percent-decoded after trimming.  A percent sign followed by two hex
digits decodes to that byte; a malformed escape is kept literally. -/
def urlDecode : List Char → List Char
  | [] => []
  | c :: rest =>
    if c == '%' then
      match rest with
      | h1 :: h2 :: rest2 =>
        if isHexChar h1 && isHexChar h2 then
          Char.ofNat (16 * hexVal h1 + hexVal h2) :: urlDecode rest2
        else c :: urlDecode (h1 :: h2 :: rest2)
      | [] => [c]
      | [h1] => c :: urlDecode [h1]
    else c :: urlDecode rest

def hexDigitChar (n : Nat) : Char :=
  if n < 10 then Char.ofNat (48 + n) else Char.ofNat (55 + n)

/-- Modelled from the spec: the percent-encoding routine Wt::Utils::urlEncode,
whose source is not part of this repository slice; alphanumeric characters are
kept, any other single-byte character is written as a percent escape. -/
def urlEncodeChar (c : Char) : List Char :=
  if c.isAlphanum then [c]
  else if c.toNat < 256 then ['%', hexDigitChar (c.toNat / 16), hexDigitChar (c.toNat % 16)]
  else [c]

def urlEncode (l : List Char) : List Char := l.foldr (fun c acc => urlEncodeChar c ++ acc) []

/-! ### Agent classification (WEnvironment::setUserAgent) -/

/-- WEnvironment::UserAgent enumeration (the variants used by setUserAgent). -/
inductive UserAgent where
  | Unknown
  | IEMobile
  | IE6
  | IE7
  | IE8
  | IE9
  | IE10
  | Opera
  | Opera10
  | Chrome0
  | Chrome1
  | Chrome2
  | Chrome3
  | Chrome4
  | Chrome5
  | Arora
  | MobileWebKitiPhone
  | MobileWebKitAndroid
  | MobileWebKit
  | Safari
  | Safari3
  | Safari4
  | WebKit
  | Konqueror
  | Gecko
  | Firefox
  | Firefox3_0
  | Firefox3_1
  | Firefox3_1b
  | Firefox3_5
  | Firefox3_6
  | Firefox4_0
  | Firefox5_0
  | BotAgent
  deriving DecidableEq, Repr

/-- Internet Explorer group of WEnvironment::setUserAgent (first if/else chain). -/
def ieStep (ua : List Char) (a : UserAgent) : UserAgent :=
  if "MSIE 2.".toList <:+: ua ∨ "MSIE 3.".toList <:+: ua ∨ "MSIE 4.".toList <:+: ua
     ∨ "MSIE 5.".toList <:+: ua ∨ "IEMobile".toList <:+: ua then UserAgent.IEMobile
  else if "MSIE 6.".toList <:+: ua then UserAgent.IE6
  else if "Trident/5.0".toList <:+: ua then UserAgent.IE9
  else if "Trident/6.0".toList <:+: ua then UserAgent.IE10
  else if "MSIE 7.".toList <:+: ua then UserAgent.IE7
  else if "MSIE 8.".toList <:+: ua then UserAgent.IE8
  else if "MSIE 9.".toList <:+: ua then UserAgent.IE9
  else if "MSIE".toList <:+: ua then UserAgent.IE10
  else a

/-- Opera group of WEnvironment::setUserAgent, including the Version/ number
parse that upgrades to Opera10 when the parsed version is at least 10. -/
def operaStep (ua : List Char) (a : UserAgent) : UserAgent :=
  if "Opera".toList <:+: ua then
    match findSubstrIdx "Version/".toList ua with
    | some t =>
      let vs := ua.drop (t + 8)
      let vs :=
        match findCharIdx ' ' vs with
        | some j => vs.take j
        | none => vs
      match parseCppDouble vs with
      | some v => if 10 ≤ v then UserAgent.Opera10 else UserAgent.Opera
      | none => UserAgent.Opera
    | none => UserAgent.Opera
  else a

/-- WebKit-family group of WEnvironment::setUserAgent (Chrome / Safari / WebKit /
Konqueror / Gecko chain). -/
def webkitStep (ua : List Char) (a : UserAgent) : UserAgent :=
  if "Chrome".toList <:+: ua then
    if "Chrome/0.".toList <:+: ua then UserAgent.Chrome0
    else if "Chrome/1.".toList <:+: ua then UserAgent.Chrome1
    else if "Chrome/2.".toList <:+: ua then UserAgent.Chrome2
    else if "Chrome/3.".toList <:+: ua then UserAgent.Chrome3
    else if "Chrome/4.".toList <:+: ua then UserAgent.Chrome4
    else UserAgent.Chrome5
  else if "Safari".toList <:+: ua then
    if "iPhone".toList <:+: ua ∨ "iPad".toList <:+: ua then UserAgent.MobileWebKitiPhone
    else if "Android".toList <:+: ua then UserAgent.MobileWebKitAndroid
    else if "Mobile".toList <:+: ua then UserAgent.MobileWebKit
    else if ¬ ("Version".toList <:+: ua) then
      if "Arora".toList <:+: ua then UserAgent.Arora else UserAgent.Safari
    else if "Version/3".toList <:+: ua then UserAgent.Safari3
    else UserAgent.Safari4
  else if "WebKit".toList <:+: ua then
    if "iPhone".toList <:+: ua then UserAgent.MobileWebKitiPhone else UserAgent.WebKit
  else if "Konqueror".toList <:+: ua then UserAgent.Konqueror
  else if "Gecko".toList <:+: ua then UserAgent.Gecko
  else a

/-- Firefox group of WEnvironment::setUserAgent (evaluated after the groups
above, overriding their result when a Firefox token is present). -/
def firefoxStep (ua : List Char) (a : UserAgent) : UserAgent :=
  if "Firefox".toList <:+: ua then
    if "Firefox/0.".toList <:+: ua then UserAgent.Firefox
    else if "Firefox/1.".toList <:+: ua then UserAgent.Firefox
    else if "Firefox/2.".toList <:+: ua then UserAgent.Firefox
    else if "Firefox/3.0".toList <:+: ua then UserAgent.Firefox3_0
    else if "Firefox/3.1".toList <:+: ua then UserAgent.Firefox3_1
    else if "Firefox/3.1b".toList <:+: ua then UserAgent.Firefox3_1b
    else if "Firefox/3.5".toList <:+: ua then UserAgent.Firefox3_5
    else if "Firefox/3.6".toList <:+: ua then UserAgent.Firefox3_6
    else if "Firefox/4.".toList <:+: ua then UserAgent.Firefox4_0
    else UserAgent.Firefox5_0
  else a

/-- The whole classification of WEnvironment::setUserAgent: IE group, then Opera,
then the WebKit family, then the Firefox override, then the bot override. -/
def classifyAgent (ua : List Char) (isBot : List Char → Bool) : UserAgent :=
  let a1 := ieStep ua UserAgent.Unknown
  let a2 := operaStep ua a1
  let a3 := webkitStep ua a2
  let a4 := firefoxStep ua a3
  if isBot ua then UserAgent.BotAgent else a4

/-! ### Cookie parsing (WEnvironment::parseCookies) -/

/-- The cookie mapping: association list with unique keys, last write wins. -/
abbrev CookieMap : Type := List (List Char × List Char)

/-- std::map bracket assignment: overwrite any earlier binding of the key. -/
def mapInsert (m : CookieMap) (k v : List Char) : CookieMap :=
  (List.filter (fun p => decide (p.1 ≠ k)) m) ++ [(k, v)]

/-- std::map::find, returning the bound value. -/
def cookieLookup (m : CookieMap) (k : List Char) : Option (List Char) :=
  (List.find? (fun p => decide (p.1 = k)) m).map (fun p => p.2)

/-- One iteration of the loop body of WEnvironment::parseCookies: split the
entry on its first equals sign, guard the value substring by length as the
source does, trim, decode, and insert when the decoded name is non-empty. -/
def parseCookieEntry (result : CookieMap) (entry : List Char) : CookieMap :=
  let e := findCharIdx '=' entry
  let cookieName :=
    match e with
    | none => entry
    | some i => entry.take i
  let cookieValue :=
    match e with
    | some i => if i + 1 < entry.length then entry.drop (i + 1) else []
    | none => []
  let cookieName := urlDecode (trimStr cookieName)
  let cookieValue := urlDecode (trimStr cookieValue)
  if cookieName ≠ [] then mapInsert result cookieName cookieValue else result

/-- WEnvironment::parseCookies inserting into a given map (the member map is
passed by reference in the source). -/
def parseCookiesInto (cookie : List Char) (result : CookieMap) : CookieMap :=
  (splitOnChar ';' cookie).foldl parseCookieEntry result

/-- WEnvironment::parseCookies starting from an empty map. -/
def parseCookies (cookie : List Char) : CookieMap :=
  parseCookiesInto cookie []

/-- The reference cookie-parsing algorithm, written from the specification text:
split the raw header on semicolons; split each entry on the first equals sign
into name and remainder (entries with no equals sign get an empty value); trim
both, percent-decode both, drop entries whose decoded name is empty, and let a
later entry overwrite an earlier one with the same decoded name. -/
def parseCookieEntrySpec (result : CookieMap) (entry : List Char) : CookieMap :=
  let nv :=
    match findCharIdx '=' entry with
    | some i => (entry.take i, entry.drop (i + 1))
    | none => (entry, [])
  let name := urlDecode (trimStr nv.1)
  let value := urlDecode (trimStr nv.2)
  if name = [] then result else mapInsert result name value

def parseCookiesSpec (cookie : List Char) : CookieMap :=
  (splitOnChar ';' cookie).foldl parseCookieEntrySpec []

/-! ### The request abstraction and configuration -/

abbrev ParameterMap : Type := List (List Char × List (List Char))

/-- The request abstraction consumed by WEnvironment: header lookup, environment
variable lookup, query string, parameter map, scheme, path info, server
name/port and the parsed locale. -/
structure WebRequest where
  headerValue : List Char → List Char
  envValue : List Char → List Char
  queryString : List Char
  parameters : ParameterMap
  urlScheme : List Char
  pathInfo : List Char
  serverName : List Char
  serverPort : List Char
  parseLocale : List Char

/-- The configuration slice WEnvironment consults: the reverse-proxy trust flag
and the bot predicate over user-agent strings. -/
structure Configuration where
  behindReverseProxy : Bool
  agentIsBot : List Char → Bool

/-- WebRequest::getParameterMap lookup for one name (empty when absent). -/
def getParameterValues (req : WebRequest) (name : List Char) : List (List Char) :=
  match List.find? (fun p => decide (p.1 = name)) req.parameters with
  | some p => p.2
  | none => []

/-- WebRequest::getParameter: first value of a possibly multi-valued parameter,
or an absence marker. -/
def getParameter (req : WebRequest) (name : List Char) : Option (List Char) :=
  match getParameterValues req name with
  | [] => none
  | v :: _ => some v

/-! ### The environment snapshot -/

/-- The per-request snapshot held by WEnvironment. -/
structure WEnvironment where
  queryString : List Char
  parameters : ParameterMap
  urlScheme : List Char
  referer : List Char
  accept : List Char
  serverSignature : List Char
  serverSoftware : List Char
  serverAdmin : List Char
  pathInfo : List Char
  host : List Char
  clientAddress : List Char
  cookies : CookieMap
  locale : List Char
  userAgent : List Char
  agent : UserAgent
  doesAjax : Bool
  doesCookies : Bool
  hashInternalPaths : Bool
  dpiScale : ℚ
  timeZoneOffset : Int
  internalPath : List Char
  publicDeploymentPath : List Char

/-- The WEnvironment constructor defaults (doesAjax, doesCookies and
hashInternalPaths false, dpiScale 1, timeZoneOffset 0, everything else empty). -/
def WEnvironment.initial : WEnvironment where
  queryString := []
  parameters := []
  urlScheme := []
  referer := []
  accept := []
  serverSignature := []
  serverSoftware := []
  serverAdmin := []
  pathInfo := []
  host := []
  clientAddress := []
  cookies := []
  locale := []
  userAgent := []
  agent := UserAgent.Unknown
  doesAjax := false
  doesCookies := false
  hashInternalPaths := false
  dpiScale := 1
  timeZoneOffset := 0
  internalPath := []
  publicDeploymentPath := []

/-- Modelled from the spec: Utils::prepend (not part of this repository slice);
the spec says non-empty internal paths are normalized to start with a slash. -/
def prependChar (l : List Char) (c : Char) : List Char :=
  match l with
  | [] => [c]
  | d :: rest => if d == c then d :: rest else c :: d :: rest

/-- WEnvironment::setInternalPath. -/
def setInternalPathVal (path : List Char) : List Char :=
  if path = [] then path else prependChar path '/'

/-! ### Client address resolution (WEnvironment::getClientAddress) -/

/-- The combined candidate list: the comma-split entries of the trimmed
Client-IP header followed by the comma-split entries of the trimmed
X-Forwarded-For header (Utils::insert appends the second vector). -/
def clientAddressCandidates (req : WebRequest) : List (List Char) :=
  let clientIp := trimStr (req.headerValue "Client-IP".toList)
  let ips := if clientIp ≠ [] then splitOnChar ',' clientIp else []
  let forwardedFor := trimStr (req.headerValue "X-Forwarded-For".toList)
  let forwardedIps := if forwardedFor ≠ [] then splitOnChar ',' forwardedFor else []
  ips ++ forwardedIps

/-- The candidate scan loop of WEnvironment::getClientAddress: each iteration
overwrites the result with the trimmed candidate and breaks on the first
non-empty candidate outside the three private-range prefixes; when no candidate
qualifies the result is the trimmed last candidate. -/
def scanIps : List (List Char) → List Char
  | [] => []
  | ip :: rest =>
    let r := trimStr ip
    if r ≠ [] ∧ ¬ ("10.".toList <+: r) ∧ ¬ ("172.16.".toList <+: r)
       ∧ ¬ ("192.168.".toList <+: r) then r
    else
      match rest with
      | [] => r
      | _ :: _ => scanIps rest

/-- WEnvironment::getClientAddress: scan the proxy headers when the
configuration trusts a reverse proxy, and use REMOTE_ADDR when the scan result
is empty. -/
def getClientAddress (req : WebRequest) (conf : Configuration) : List Char :=
  let result := if conf.behindReverseProxy then scanIps (clientAddressCandidates req) else []
  if result = [] then req.envValue "REMOTE_ADDR".toList else result

/-! ### Phase 1: WEnvironment::init -/

/-- The server-host determination of WEnvironment::init: behind a reverse proxy
take the part after the last comma of X-Forwarded-Host, otherwise the Host
header, falling back to serverName[:serverPort]. -/
def determineHost (req : WebRequest) (conf : Configuration) : List Char :=
  let host0 :=
    if conf.behindReverseProxy then
      let forwardedHost := req.headerValue "X-Forwarded-Host".toList
      if forwardedHost ≠ [] then
        match rfindCharIdx ',' forwardedHost with
        | none => forwardedHost
        | some i => forwardedHost.drop (i + 1)
      else req.headerValue "Host".toList
    else req.headerValue "Host".toList
  if host0 = [] then
    req.serverName ++ (if req.serverPort ≠ [] then ':' :: req.serverPort else [])
  else host0

/-- WEnvironment::setUserAgent: store the raw string and its classification. -/
def setUserAgent (env : WEnvironment) (ua : List Char) (conf : Configuration) : WEnvironment :=
  { env with userAgent := ua, agent := classifyAgent ua conf.agentIsBot }

/-- WEnvironment::init (phase 1): populate every non-interactive field of the
snapshot from the request and configuration. -/
def init (env : WEnvironment) (req : WebRequest) (conf : Configuration) : WEnvironment :=
  let ua := req.headerValue "User-Agent".toList
  let cookie := req.headerValue "Cookie".toList
  let env := setUserAgent env ua conf
  { env with
    queryString := req.queryString
    parameters := req.parameters
    urlScheme := req.urlScheme
    referer := req.headerValue "Referer".toList
    accept := req.headerValue "Accept".toList
    serverSignature := req.envValue "SERVER_SIGNATURE".toList
    serverSoftware := req.envValue "SERVER_SOFTWARE".toList
    serverAdmin := req.envValue "SERVER_ADMIN".toList
    pathInfo := req.pathInfo
    host := determineHost req conf
    clientAddress := getClientAddress req conf
    doesCookies := !cookie.isEmpty
    cookies := if !cookie.isEmpty then parseCookiesInto cookie env.cookies else env.cookies
    locale := req.parseLocale }

/-! ### Phase 2: WEnvironment::enableAjax -/

/-- WEnvironment::enableAjax (phase 2): promote the snapshot to interactive
mode, recompute the cookie-support flag from the new request, and apply the
scale, tz, internal-path and deployPath upgrade parameters. -/
def enableAjax (env : WEnvironment) (req : WebRequest) : WEnvironment :=
  { env with
    doesAjax := true
    doesCookies := !(req.headerValue "Cookie".toList).isEmpty
    hashInternalPaths :=
      if (getParameter req "htmlHistory".toList).isNone then true else env.hashInternalPaths
    dpiScale :=
      match getParameter req "scale".toList with
      | some s =>
        match parseCppDouble s with
        | some v => v
        | none => 1
      | none => 1
    timeZoneOffset :=
      match getParameter req "tz".toList with
      | some s =>
        match parseCppInt s with
        | some v => v
        | none => env.timeZoneOffset
      | none => 0
    internalPath :=
      match getParameter req "_".toList with
      | some p => setInternalPathVal p
      | none => env.internalPath
    publicDeploymentPath :=
      match getParameter req "deployPath".toList with
      | some d => if findCharIdx '/' d = some 0 then d else []
      | none => env.publicDeploymentPath }

/-! ### Concrete requests and configurations used as test inputs -/

/-- A request with every field empty. -/
def emptyReq : WebRequest where
  headerValue := fun _ => []
  envValue := fun _ => []
  queryString := []
  parameters := []
  urlScheme := []
  pathInfo := []
  serverName := []
  serverPort := []
  parseLocale := []

/-- A configuration that trusts a reverse proxy and recognizes no bot. -/
def proxyConf : Configuration where
  behindReverseProxy := true
  agentIsBot := fun _ => false

/-- A configuration with no reverse proxy and no bot. -/
def plainConf : Configuration where
  behindReverseProxy := false
  agentIsBot := fun _ => false

/-- A request whose only proxy-header candidate is a private address, with a
public transport-reported remote address. -/
def privateChainReq : WebRequest :=
  { emptyReq with
    headerValue := fun n => if n = "Client-IP".toList then "10.0.0.1".toList else []
    envValue := fun n => if n = "REMOTE_ADDR".toList then "1.2.3.4".toList else [] }

/-- A request whose Cookie header consists of a bare semicolon. -/
def semicolonCookieReq : WebRequest :=
  { emptyReq with
    headerValue := fun n => if n = "Cookie".toList then ";".toList else [] }

/-- An upgrade request carrying unparsable scale and tz parameters. -/
def badScaleTzReq : WebRequest :=
  { emptyReq with
    parameters := [("scale".toList, ["abc".toList]), ("tz".toList, ["abc".toList])] }

/-- An upgrade request with a deployPath value that lacks a leading slash. -/
def deployFooReq : WebRequest :=
  { emptyReq with parameters := [("deployPath".toList, ["foo".toList])] }

/-- An upgrade request with a deployPath value starting with a slash. -/
def deploySlashReq : WebRequest :=
  { emptyReq with parameters := [("deployPath".toList, ["/app".toList])] }

/-- A snapshot whose timezone offset was previously set to 42. -/
def envTz42 : WEnvironment :=
  { WEnvironment.initial with timeZoneOffset := 42 }

end WtEnv

namespace WtEnv

/-! ### General helper lemmas -/

/-- A substring of an occurring string occurs: transitivity of taking an
initial segment with occurrence. -/
theorem inf_of_pre_inf {a b c : List Char} (h1 : a <+: b) (h2 : b <:+: c) : a <:+: c := by
  obtain ⟨t, rfl⟩ := h1
  obtain ⟨s, u, rfl⟩ := h2
  exact ⟨s, t ++ u, by simp⟩

/-! ### The Firefox 3.1b branch of setUserAgent is unreachable -/

/-- The IE group never yields the Firefox3_1b identity unless it was passed in. -/
theorem ieStep_ne_31b (ua : List Char) (a : UserAgent) (ha : a ≠ UserAgent.Firefox3_1b) :
    ieStep ua a ≠ UserAgent.Firefox3_1b := by
  unfold ieStep
  repeat' split
  all_goals first | decide | exact ha

/-- The Opera group never yields the Firefox3_1b identity unless it was passed in. -/
theorem operaStep_ne_31b (ua : List Char) (a : UserAgent) (ha : a ≠ UserAgent.Firefox3_1b) :
    operaStep ua a ≠ UserAgent.Firefox3_1b := by
  unfold operaStep
  dsimp only
  repeat' split
  all_goals first | decide | exact ha

/-- The WebKit group never yields the Firefox3_1b identity unless it was passed in. -/
theorem webkitStep_ne_31b (ua : List Char) (a : UserAgent) (ha : a ≠ UserAgent.Firefox3_1b) :
    webkitStep ua a ≠ UserAgent.Firefox3_1b := by
  unfold webkitStep
  repeat' split
  all_goals first | decide | exact ha

/-- The Firefox group never yields Firefox3_1b: its guard needs the string to
contain Firefox/3.1b without containing Firefox/3.1, which is impossible. -/
theorem firefoxStep_ne_31b (ua : List Char) (a : UserAgent) (ha : a ≠ UserAgent.Firefox3_1b) :
    firefoxStep ua a ≠ UserAgent.Firefox3_1b := by
  unfold firefoxStep
  repeat' split
  all_goals first
    | decide
    | exact ha
    | (rename_i h31 h31b
       exact absurd (inf_of_pre_inf (by decide) h31b) h31)

/-- No user-agent string at all is classified as Firefox3_1b. -/
theorem classifyAgent_ne_31b (ua : List Char) (isBot : List Char → Bool) :
    classifyAgent ua isBot ≠ UserAgent.Firefox3_1b := by
  unfold classifyAgent
  split
  · decide
  · exact firefoxStep_ne_31b ua _
      (webkitStep_ne_31b ua _ (operaStep_ne_31b ua _ (ieStep_ne_31b ua _ (by decide))))

/-- C2 (code bug): a user-agent containing the token Firefox/3.1b, matching no
bot and containing no earlier Firefox version token, is classified as
Firefox3_1 rather than Firefox3_1b: the Firefox/3.1 substring check precedes
the Firefox/3.1b check and subsumes it, so the Firefox3_1b branch is dead and
the distinct Firefox-3.1b bucket promised by the spec is never assigned. -/
theorem firefox31b_dead_branch :
    classifyAgent "Gecko/2009 Firefox/3.1b3".toList (fun _ => false) = UserAgent.Firefox3_1
    ∧ UserAgent.Firefox3_1 ≠ UserAgent.Firefox3_1b
    ∧ ∀ (ua : List Char) (isBot : List Char → Bool),
        classifyAgent ua isBot ≠ UserAgent.Firefox3_1b :=
  ⟨by decide, by decide, classifyAgent_ne_31b⟩

/-! ### The Firefox override (C3) -/

/-- Under the C3 hypotheses the Firefox group returns Firefox3_6 whatever value
the earlier groups produced. -/
theorem firefoxStep_36 (ua : List Char)
    (h36 : "Firefox/3.6".toList <:+: ua)
    (h0 : ¬ ("Firefox/0.".toList <:+: ua))
    (h1 : ¬ ("Firefox/1.".toList <:+: ua))
    (h2 : ¬ ("Firefox/2.".toList <:+: ua))
    (h30 : ¬ ("Firefox/3.0".toList <:+: ua))
    (h31 : ¬ ("Firefox/3.1".toList <:+: ua))
    (h35 : ¬ ("Firefox/3.5".toList <:+: ua))
    (a : UserAgent) :
    firefoxStep ua a = UserAgent.Firefox3_6 := by
  have hff : "Firefox".toList <:+: ua := inf_of_pre_inf (by decide) h36
  have h31b : ¬ ("Firefox/3.1b".toList <:+: ua) :=
    fun h => h31 (inf_of_pre_inf (by decide) h)
  unfold firefoxStep
  rw [if_pos hff, if_neg h0, if_neg h1, if_neg h2, if_neg h30, if_neg h31, if_neg h31b,
      if_neg h35, if_pos h36]

/-- C3: a user-agent containing a WebKit-family token together with
Firefox/3.6, not matching the bot predicate and containing no earlier Firefox
version token, is classified as Firefox3_6 — the Firefox group is evaluated
after the WebKit group and overrides it. -/
theorem firefox36_overrides_webkit (ua : List Char) (isBot : List Char → Bool)
    (_hwk : "Safari".toList <:+: ua ∨ "WebKit".toList <:+: ua ∨ "Chrome".toList <:+: ua)
    (h36 : "Firefox/3.6".toList <:+: ua)
    (hbot : isBot ua = false)
    (h0 : ¬ ("Firefox/0.".toList <:+: ua))
    (h1 : ¬ ("Firefox/1.".toList <:+: ua))
    (h2 : ¬ ("Firefox/2.".toList <:+: ua))
    (h30 : ¬ ("Firefox/3.0".toList <:+: ua))
    (h31 : ¬ ("Firefox/3.1".toList <:+: ua))
    (h35 : ¬ ("Firefox/3.5".toList <:+: ua)) :
    classifyAgent ua isBot = UserAgent.Firefox3_6 := by
  unfold classifyAgent
  rw [hbot]
  simp only [Bool.false_eq_true, if_false]
  exact firefoxStep_36 ua h36 h0 h1 h2 h30 h31 h35 _

/-- Witness for C3 at a concrete WebKit-plus-Firefox/3.6 user-agent. -/
theorem firefox36_overrides_webkit_witness :
    "WebKit".toList <:+: "Mozilla WebKit Safari Firefox/3.6".toList
    ∧ classifyAgent "Mozilla WebKit Safari Firefox/3.6".toList (fun _ => false)
      = UserAgent.Firefox3_6 :=
  ⟨by decide,
   firefox36_overrides_webkit "Mozilla WebKit Safari Firefox/3.6".toList (fun _ => false)
     (Or.inr (Or.inl (by decide))) (by decide) rfl
     (by decide) (by decide) (by decide) (by decide) (by decide) (by decide)⟩

/-! ### The bot override (C4) -/

/-- C4: whenever the configured bot predicate accepts the user-agent string the
classification is the bot identity, regardless of any browser tokens. -/
theorem bot_overrides_all (ua : List Char) (isBot : List Char → Bool)
    (h : isBot ua = true) :
    classifyAgent ua isBot = UserAgent.BotAgent := by
  unfold classifyAgent
  rw [h]
  simp

/-- Witness for C4 at a user-agent full of browser tokens. -/
theorem bot_overrides_all_witness :
    classifyAgent "Chrome Firefox/3.6 MSIE 7. Opera".toList (fun _ => true)
      = UserAgent.BotAgent :=
  bot_overrides_all "Chrome Firefox/3.6 MSIE 7. Opera".toList (fun _ => true) rfl

/-! ### The cookie parser agrees with the reference algorithm (C5) -/

/-- Entry-wise agreement of the source loop body with the reference loop body:
the only textual difference is the source's length guard on the value
substring, which is redundant because dropping past the end yields the empty
string anyway. -/
theorem parseCookieEntry_eq (m : CookieMap) (entry : List Char) :
    parseCookieEntry m entry = parseCookieEntrySpec m entry := by
  unfold parseCookieEntry parseCookieEntrySpec
  cases hE : findCharIdx '=' entry with
  | none => simp [ite_not]
  | some i =>
    by_cases hl : i + 1 < entry.length
    · simp [hl, ite_not]
    · have hd : entry.drop (i + 1) = [] := List.drop_eq_nil_of_le (by omega)
      simp [hl, hd, ite_not]

/-- The parsers agree from any starting map. -/
theorem parseCookiesInto_eq (cookie : List Char) (m : CookieMap) :
    parseCookiesInto cookie m = (splitOnChar ';' cookie).foldl parseCookieEntrySpec m := by
  unfold parseCookiesInto
  have h : parseCookieEntry = parseCookieEntrySpec :=
    funext fun m => funext fun e => parseCookieEntry_eq m e
  rw [h]

/-- The parser agrees with the reference algorithm (shared helper form). -/
theorem parseCookies_eq_spec (cookie : List Char) :
    parseCookies cookie = parseCookiesSpec cookie := by
  unfold parseCookies parseCookiesSpec
  exact parseCookiesInto_eq cookie []

/-- C5: the cookie parser equals the reference algorithm of the specification:
split on semicolons only, split each entry on its first equals sign (no equals
sign giving an empty value), trim name and value before percent-decoding them,
discard entries with an empty decoded name, let later duplicates overwrite
earlier ones, and never fail on malformed entries (both sides are total). -/
theorem parseCookies_matches_reference (cookie : List Char) :
    parseCookies cookie = parseCookiesSpec cookie :=
  parseCookies_eq_spec cookie

/-! ### Percent encoding round-trip lemmas -/

theorem isHexChar_hexDigitChar : ∀ n < 16, isHexChar (hexDigitChar n) = true := by decide

theorem hexVal_hexDigitChar : ∀ n < 16, hexVal (hexDigitChar n) = n := by decide

theorem hexDigitChar_safe :
    ∀ n < 16, isSpaceChar (hexDigitChar n) = false
      ∧ hexDigitChar n ≠ ';' ∧ hexDigitChar n ≠ '=' := by decide

/-- Whitespace characters have small code points. -/
theorem isSpaceChar_toNat {c : Char} (h : isSpaceChar c = true) : c.toNat < 33 := by
  simp only [isSpaceChar, Bool.or_eq_true, beq_iff_eq] at h
  rcases h with ((((h | h) | h) | h) | h) | h <;> subst h <;> decide

/-- An alphanumeric character is not whitespace. -/
theorem isAlphanum_not_space {c : Char} (h : c.isAlphanum = true) : isSpaceChar c = false := by
  cases hs : isSpaceChar c with
  | false => rfl
  | true =>
    exfalso
    simp only [isSpaceChar, Bool.or_eq_true, beq_iff_eq] at hs
    rcases hs with ((((h1 | h1) | h1) | h1) | h1) | h1 <;> subst h1 <;> exact absurd h (by decide)

/-- An alphanumeric character is none of the cookie metacharacters. -/
theorem isAlphanum_ne_special {c : Char} (h : c.isAlphanum = true) :
    c ≠ ';' ∧ c ≠ '=' ∧ c ≠ '%' :=
  ⟨fun he => by subst he; exact absurd h (by decide),
   fun he => by subst he; exact absurd h (by decide),
   fun he => by subst he; exact absurd h (by decide)⟩

/-- A character outside the single-byte range is kept literally and is none of
the characters the parser treats specially. -/
theorem big_char_safe {c : Char} (h : ¬ c.toNat < 256) :
    isSpaceChar c = false ∧ c ≠ ';' ∧ c ≠ '=' ∧ c ≠ '%' := by
  refine ⟨?_, ?_, ?_, ?_⟩
  · cases hs : isSpaceChar c with
    | false => rfl
    | true => exact absurd (Nat.lt_trans (isSpaceChar_toNat hs) (by norm_num)) h
  · intro he; subst he; exact h (by decide)
  · intro he; subst he; exact h (by decide)
  · intro he; subst he; exact h (by decide)

/-- Every character the encoder emits is harmless to the cookie grammar. -/
theorem urlEncodeChar_safe (c : Char) :
    ∀ d ∈ urlEncodeChar c, isSpaceChar d = false ∧ d ≠ ';' ∧ d ≠ '=' := by
  intro d hd
  unfold urlEncodeChar at hd
  by_cases ha : c.isAlphanum
  · rw [if_pos ha] at hd
    simp only [List.mem_singleton] at hd
    subst hd
    exact ⟨isAlphanum_not_space ha, (isAlphanum_ne_special ha).1, (isAlphanum_ne_special ha).2.1⟩
  · rw [if_neg ha] at hd
    by_cases hb : c.toNat < 256
    · rw [if_pos hb] at hd
      simp only [List.mem_cons, List.not_mem_nil, or_false] at hd
      rcases hd with hd | hd | hd
      · subst hd; exact ⟨by decide, by decide, by decide⟩
      · subst hd; exact hexDigitChar_safe _ (by omega)
      · subst hd; exact hexDigitChar_safe _ (by omega)
    · rw [if_neg hb] at hd
      simp only [List.mem_singleton] at hd
      subst hd
      exact ⟨(big_char_safe hb).1, (big_char_safe hb).2.1, (big_char_safe hb).2.2.1⟩

/-- Every character of an encoded string is harmless to the cookie grammar. -/
theorem urlEncode_safe (l : List Char) :
    ∀ d ∈ urlEncode l, isSpaceChar d = false ∧ d ≠ ';' ∧ d ≠ '=' := by
  induction l with
  | nil => intro d hd; simp [urlEncode] at hd
  | cons c rest ih =>
    intro d hd
    have hstep : urlEncode (c :: rest) = urlEncodeChar c ++ urlEncode rest := rfl
    rw [hstep, List.mem_append] at hd
    rcases hd with hd | hd
    · exact urlEncodeChar_safe c d hd
    · exact ih d hd

theorem dropWhile_all_false {p : Char → Bool} {l : List Char}
    (h : ∀ c ∈ l, p c = false) : l.dropWhile p = l := by
  cases l with
  | nil => rfl
  | cons c rest =>
    rw [List.dropWhile_cons, h c (List.mem_cons_self c rest)]
    simp

/-- Trimming is the identity on strings without whitespace. -/
theorem trimStr_eq_self {l : List Char} (h : ∀ c ∈ l, isSpaceChar c = false) :
    trimStr l = l := by
  unfold trimStr
  rw [dropWhile_all_false h,
      dropWhile_all_false (fun c hc => h c (List.mem_reverse.mp hc)),
      List.reverse_reverse]

/-- Splitting a string that contains no separator yields that one group. -/
theorem splitOnChar_all_ne {sep : Char} {l : List Char}
    (h : ∀ c ∈ l, (c == sep) = false) : splitOnChar sep l = [l] := by
  induction l with
  | nil => rfl
  | cons c rest ih =>
    have hc := h c (List.mem_cons_self c rest)
    have hr := ih (fun d hd => h d (List.mem_cons_of_mem c hd))
    simp [splitOnChar, hc, hr]

/-- The first equals sign of name=value sits right after the name when the name
contains no equals sign. -/
theorem findCharIdx_append_sep (l1 l2 : List Char)
    (h : ∀ c ∈ l1, (c == '=') = false) :
    findCharIdx '=' (l1 ++ '=' :: l2) = some l1.length := by
  induction l1 with
  | nil => simp [findCharIdx, findPredIdx]
  | cons c rest ih =>
    have hc := h c (List.mem_cons_self c rest)
    have hr := ih (fun d hd => h d (List.mem_cons_of_mem c hd))
    simp only [findCharIdx] at hr
    simp [findCharIdx, findPredIdx, hc, hr, List.length_cons]

/-- Decoding steps over a character that is not a percent sign. -/
theorem urlDecode_cons_ne {c : Char} (u : List Char) (h : (c == '%') = false) :
    urlDecode (c :: u) = c :: urlDecode u := by
  cases u with
  | nil => simp [urlDecode, h]
  | cons h1 t =>
    cases t with
    | nil => simp [urlDecode, h]
    | cons h2 t2 => simp [urlDecode, h]

/-- Decoding a well-formed percent escape recovers the encoded character. -/
theorem urlDecode_escape (c : Char) (u : List Char) (hb : c.toNat < 256) :
    urlDecode ('%' :: hexDigitChar (c.toNat / 16) :: hexDigitChar (c.toNat % 16) :: u)
      = c :: urlDecode u := by
  have h1 : isHexChar (hexDigitChar (c.toNat / 16)) = true := isHexChar_hexDigitChar _ (by omega)
  have h2 : isHexChar (hexDigitChar (c.toNat % 16)) = true := isHexChar_hexDigitChar _ (by omega)
  have hv1 : hexVal (hexDigitChar (c.toNat / 16)) = c.toNat / 16 := hexVal_hexDigitChar _ (by omega)
  have hv2 : hexVal (hexDigitChar (c.toNat % 16)) = c.toNat % 16 := hexVal_hexDigitChar _ (by omega)
  simp only [urlDecode, h1, h2, hv1, hv2, Bool.and_self, if_true, beq_self_eq_true]
  rw [Nat.div_add_mod, Char.ofNat_toNat]

/-- Decoding steps over one encoded character. -/
theorem urlDecode_urlEncodeChar (c : Char) (u : List Char) :
    urlDecode (urlEncodeChar c ++ u) = c :: urlDecode u := by
  unfold urlEncodeChar
  by_cases ha : c.isAlphanum
  · rw [if_pos ha]
    simp only [List.cons_append, List.nil_append]
    refine urlDecode_cons_ne u ?_
    cases hq : c == '%' with
    | false => rfl
    | true =>
      have : c = '%' := beq_iff_eq.mp hq
      subst this
      exact absurd ha (by decide)
  · rw [if_neg ha]
    by_cases hb : c.toNat < 256
    · rw [if_pos hb]
      simp only [List.cons_append, List.nil_append]
      exact urlDecode_escape c u hb
    · rw [if_neg hb]
      simp only [List.cons_append, List.nil_append]
      refine urlDecode_cons_ne u ?_
      cases hq : c == '%' with
      | false => rfl
      | true =>
        have : c = '%' := beq_iff_eq.mp hq
        subst this
        exact absurd (by decide : ('%').toNat < 256) hb

/-- Decoding an encoded string followed by anything decodes the tail in place. -/
theorem urlDecode_urlEncode_append (l u : List Char) :
    urlDecode (urlEncode l ++ u) = l ++ urlDecode u := by
  induction l with
  | nil => rfl
  | cons c rest ih =>
    have hstep : urlEncode (c :: rest) = urlEncodeChar c ++ urlEncode rest := rfl
    rw [hstep, List.append_assoc, urlDecode_urlEncodeChar, ih]
    rfl

/-- Percent-decoding inverts percent-encoding. -/
theorem urlDecode_urlEncode (l : List Char) : urlDecode (urlEncode l) = l := by
  have h := urlDecode_urlEncode_append l []
  simpa [urlDecode] using h

/-- C6: percent-encoding a (non-empty) name and a value, assembling the header
name=value, and parsing it yields a mapping that maps the original name to the
original value. -/
theorem cookie_roundtrip (name value : List Char) (hn : name ≠ [])
    (_hname : ∀ c ∈ name, c ≠ ';' ∧ c ≠ '=' ∧ 32 ≤ c.toNat ∧ c.toNat ≠ 127)
    (_hvalue : ∀ c ∈ value, c ≠ ';' ∧ c ≠ '=' ∧ 32 ≤ c.toNat ∧ c.toNat ≠ 127) :
    cookieLookup (parseCookies (urlEncode name ++ '=' :: urlEncode value)) name
      = some value := by
  have hs1 := urlEncode_safe name
  have hs2 := urlEncode_safe value
  have hsem : ∀ c ∈ urlEncode name ++ '=' :: urlEncode value, (c == ';') = false := by
    intro c hc
    rw [List.mem_append, List.mem_cons] at hc
    rcases hc with hc | hc | hc
    · exact beq_eq_false_iff_ne.mpr (hs1 c hc).2.1
    · subst hc; decide
    · exact beq_eq_false_iff_ne.mpr (hs2 c hc).2.1
  have hfind : findCharIdx '=' (urlEncode name ++ '=' :: urlEncode value)
      = some (urlEncode name).length :=
    findCharIdx_append_sep _ _ (fun c hc => beq_eq_false_iff_ne.mpr (hs1 c hc).2.2)
  have htake : (urlEncode name ++ '=' :: urlEncode value).take (urlEncode name).length
      = urlEncode name := List.take_left _ _
  have hdrop : (urlEncode name ++ '=' :: urlEncode value).drop ((urlEncode name).length + 1)
      = urlEncode value := by
    rw [show urlEncode name ++ '=' :: urlEncode value
          = (urlEncode name ++ ['=']) ++ urlEncode value by simp,
        show (urlEncode name).length + 1 = (urlEncode name ++ ['=']).length by simp]
    exact List.drop_left _ _
  have htn : trimStr (urlEncode name) = urlEncode name :=
    trimStr_eq_self (fun c hc => (hs1 c hc).1)
  have htv : trimStr (urlEncode value) = urlEncode value :=
    trimStr_eq_self (fun c hc => (hs2 c hc).1)
  rw [parseCookies_eq_spec]
  unfold parseCookiesSpec
  rw [splitOnChar_all_ne hsem]
  simp only [List.foldl_cons, List.foldl_nil]
  unfold parseCookieEntrySpec
  rw [hfind]
  dsimp only
  rw [htake, hdrop, htn, htv, urlDecode_urlEncode, urlDecode_urlEncode]
  rw [if_neg hn]
  simp [mapInsert, cookieLookup]

/-- Witness for C6 at a name and value needing percent escapes. -/
theorem cookie_roundtrip_witness :
    "my name".toList ≠ []
    ∧ cookieLookup
        (parseCookies (urlEncode "my name".toList ++ '=' :: urlEncode "a b%c".toList))
        "my name".toList = some "a b%c".toList :=
  ⟨by decide, cookie_roundtrip _ _ (by decide) (by decide) (by decide)⟩

/-! ### Client-address resolution behind a proxy (C1) -/

/-- A candidate is skipped by the scan when it trims to empty or starts with
one of the private-range prefixes. -/
def privateOrEmpty (ip : List Char) : Prop :=
  trimStr ip = [] ∨ "10.".toList <+: trimStr ip ∨ "172.16.".toList <+: trimStr ip
    ∨ "192.168.".toList <+: trimStr ip

instance (ip : List Char) : Decidable (privateOrEmpty ip) := by
  unfold privateOrEmpty
  infer_instance

/-- When every candidate is private or empty the scan loop runs off the end,
leaving the trimmed last candidate in the result variable. -/
theorem scanIps_all_private {l : List (List Char)}
    (h : ∀ ip ∈ l, privateOrEmpty ip) :
    scanIps l =
      match l.getLast? with
      | none => []
      | some ip => trimStr ip := by
  induction l with
  | nil => rfl
  | cons ip rest ih =>
    have hip := h ip (List.mem_cons_self ip rest)
    have hcond : ¬ (trimStr ip ≠ [] ∧ ¬ ("10.".toList <+: trimStr ip)
        ∧ ¬ ("172.16.".toList <+: trimStr ip) ∧ ¬ ("192.168.".toList <+: trimStr ip)) := by
      unfold privateOrEmpty at hip
      tauto
    cases rest with
    | nil =>
      show (if trimStr ip ≠ [] ∧ ¬ ("10.".toList <+: trimStr ip)
          ∧ ¬ ("172.16.".toList <+: trimStr ip) ∧ ¬ ("192.168.".toList <+: trimStr ip)
          then trimStr ip else trimStr ip)
        = match [ip].getLast? with
          | none => []
          | some x => trimStr x
      rw [if_neg hcond]
      simp [List.getLast?]
    | cons ip2 rest2 =>
      have hr := ih (fun x hx => h x (List.mem_cons_of_mem ip hx))
      rw [List.getLast?_cons_cons, ← hr]
      show (if trimStr ip ≠ [] ∧ ¬ ("10.".toList <+: trimStr ip)
          ∧ ¬ ("172.16.".toList <+: trimStr ip) ∧ ¬ ("192.168.".toList <+: trimStr ip)
          then trimStr ip else scanIps (ip2 :: rest2))
        = scanIps (ip2 :: rest2)
      rw [if_neg hcond]

/-- C1 (amended): with the reverse-proxy flag enabled and every candidate of
the combined Client-IP / X-Forwarded-For list private or empty after trimming,
the resolved client address is REMOTE_ADDR only when the candidate list is
empty or its last candidate trims to empty; otherwise it is the trimmed last
candidate (a private address), not REMOTE_ADDR. -/
theorem clientAddress_all_private (req : WebRequest) (conf : Configuration)
    (hp : conf.behindReverseProxy = true)
    (h : ∀ ip ∈ clientAddressCandidates req, privateOrEmpty ip) :
    getClientAddress req conf =
      match (clientAddressCandidates req).getLast? with
      | none => req.envValue "REMOTE_ADDR".toList
      | some ip =>
        if trimStr ip = [] then req.envValue "REMOTE_ADDR".toList else trimStr ip := by
  unfold getClientAddress
  rw [hp]
  simp only [if_true]
  rw [scanIps_all_private h]
  cases hL : (clientAddressCandidates req).getLast? with
  | none => simp
  | some ip =>
    by_cases hr : trimStr ip = [] <;> simp [hr]

/-- Counterexample to C1 as stated: with the trust flag on and a single,
private, non-empty candidate, the resolved address is that private candidate
and not the transport-reported remote address. -/
theorem clientAddress_all_private_counterexample :
    (∀ ip ∈ clientAddressCandidates privateChainReq, privateOrEmpty ip)
    ∧ proxyConf.behindReverseProxy = true
    ∧ privateChainReq.envValue "REMOTE_ADDR".toList = "1.2.3.4".toList
    ∧ getClientAddress privateChainReq proxyConf ≠ "1.2.3.4".toList := by
  refine ⟨by decide, rfl, by decide, by decide⟩

/-- Witness for the amended C1 at the concrete all-private request. -/
theorem clientAddress_all_private_witness :
    proxyConf.behindReverseProxy = true
    ∧ getClientAddress privateChainReq proxyConf = "10.0.0.1".toList :=
  ⟨rfl,
   (clientAddress_all_private privateChainReq proxyConf rfl (by decide)).trans (by decide)⟩

/-! ### Cookie-support flag after phase 1 (C7) -/

/-- C7: after phase-1 initialization the cookie-support flag is true exactly
when the raw Cookie header was non-empty, independent of whether parsing
produced entries: a header consisting of a bare semicolon still sets the flag
while the parsed mapping stays empty. -/
theorem doesCookies_iff_header_nonempty :
    (∀ (env : WEnvironment) (req : WebRequest) (conf : Configuration),
        ((init env req conf).doesCookies = true ↔ req.headerValue "Cookie".toList ≠ []))
    ∧ (init WEnvironment.initial semicolonCookieReq plainConf).doesCookies = true
    ∧ (init WEnvironment.initial semicolonCookieReq plainConf).cookies = [] := by
  refine ⟨?_, by decide, by decide⟩
  intro env req conf
  show (!(req.headerValue "Cookie".toList).isEmpty) = true ↔ _
  simp [List.isEmpty_iff]

/-! ### Scale and timezone upgrade parameters (C8) -/

/-- C8: in the phase-2 promotion an absent or unparsable scale parameter sets
the dpi scale to 1; an absent tz parameter sets the timezone offset to 0; a
present but unparsable tz parameter leaves the previous offset unchanged; and
the promotion is a total function, so no malformed parameter raises. -/
theorem ajax_scale_tz_defaults (env : WEnvironment) (req : WebRequest) :
    ((getParameter req "scale".toList = none
        ∨ ∃ s, getParameter req "scale".toList = some s ∧ parseCppDouble s = none) →
      (enableAjax env req).dpiScale = 1)
    ∧ (getParameter req "tz".toList = none → (enableAjax env req).timeZoneOffset = 0)
    ∧ (∀ s, getParameter req "tz".toList = some s → parseCppInt s = none →
        (enableAjax env req).timeZoneOffset = env.timeZoneOffset) := by
  refine ⟨?_, ?_, ?_⟩
  · rintro (h | ⟨s, hs, hp⟩)
    · show ((match getParameter req "scale".toList with
            | some s =>
              match parseCppDouble s with
              | some v => v
              | none => 1
            | none => 1 : ℚ)) = 1
      rw [h]
    · show ((match getParameter req "scale".toList with
            | some s =>
              match parseCppDouble s with
              | some v => v
              | none => 1
            | none => 1 : ℚ)) = 1
      rw [hs]
      dsimp only
      rw [hp]
  · intro h
    show ((match getParameter req "tz".toList with
          | some s =>
            match parseCppInt s with
            | some v => v
            | none => env.timeZoneOffset
          | none => 0 : Int)) = 0
    rw [h]
  · intro s hs hp
    show ((match getParameter req "tz".toList with
          | some s =>
            match parseCppInt s with
            | some v => v
            | none => env.timeZoneOffset
          | none => 0 : Int)) = env.timeZoneOffset
    rw [hs]
    dsimp only
    rw [hp]

/-- Witness for C8: scale=abc resets the scale to 1 while tz=abc leaves the
previously stored offset 42 in place. -/
theorem ajax_scale_tz_defaults_witness :
    getParameter badScaleTzReq "tz".toList = some "abc".toList
    ∧ (enableAjax envTz42 badScaleTzReq).dpiScale = 1
    ∧ (enableAjax envTz42 badScaleTzReq).timeZoneOffset = 42 :=
  ⟨by decide,
   (ajax_scale_tz_defaults envTz42 badScaleTzReq).1
     (Or.inr ⟨"abc".toList, by decide, by decide⟩),
   ((ajax_scale_tz_defaults envTz42 badScaleTzReq).2.2 "abc".toList
     (by decide) (by decide)).trans rfl⟩

/-! ### Deployment-path validation (C9) -/

/-- C9: a deployPath upgrade parameter is accepted as the public deployment
path exactly when the position of the first slash in its value is 0; otherwise
the stored public deployment path is the empty string. -/
theorem deployPath_validation (env : WEnvironment) (req : WebRequest) (v : List Char)
    (h : getParameter req "deployPath".toList = some v) :
    (enableAjax env req).publicDeploymentPath
      = if findCharIdx '/' v = some 0 then v else [] := by
  show (match getParameter req "deployPath".toList with
        | some d => if findCharIdx '/' d = some 0 then d else []
        | none => env.publicDeploymentPath)
    = if findCharIdx '/' v = some 0 then v else []
  rw [h]

/-- Witness for C9: deployPath=foo is rejected leaving the path empty, while
deployPath=/app is accepted. -/
theorem deployPath_validation_witness :
    (enableAjax WEnvironment.initial deployFooReq).publicDeploymentPath = []
    ∧ (enableAjax WEnvironment.initial deploySlashReq).publicDeploymentPath = "/app".toList :=
  ⟨(deployPath_validation WEnvironment.initial deployFooReq "foo".toList (by decide)).trans
     (by decide),
   (deployPath_validation WEnvironment.initial deploySlashReq "/app".toList (by decide)).trans
     (by decide)⟩

/-! ### Frame property of the phase-2 promotion (C10) -/

/-- C10: the phase-2 promotion touches only the interactive subset: it sets
the AJAX flag, recomputes the cookie-support flag from the new Cookie header
without re-parsing cookies, and possibly updates the hash-path flag, scale,
timezone offset, internal path and public deployment path; every other phase-1
field — query string, parameters, scheme, referer, accept, server strings,
path info, host, client address, parsed cookies, locale, user agent and its
classification — is unchanged. -/
theorem enableAjax_frame (env : WEnvironment) (req : WebRequest) :
    (enableAjax env req).queryString = env.queryString
    ∧ (enableAjax env req).parameters = env.parameters
    ∧ (enableAjax env req).urlScheme = env.urlScheme
    ∧ (enableAjax env req).referer = env.referer
    ∧ (enableAjax env req).accept = env.accept
    ∧ (enableAjax env req).serverSignature = env.serverSignature
    ∧ (enableAjax env req).serverSoftware = env.serverSoftware
    ∧ (enableAjax env req).serverAdmin = env.serverAdmin
    ∧ (enableAjax env req).pathInfo = env.pathInfo
    ∧ (enableAjax env req).host = env.host
    ∧ (enableAjax env req).clientAddress = env.clientAddress
    ∧ (enableAjax env req).cookies = env.cookies
    ∧ (enableAjax env req).locale = env.locale
    ∧ (enableAjax env req).userAgent = env.userAgent
    ∧ (enableAjax env req).agent = env.agent
    ∧ (enableAjax env req).doesAjax = true
    ∧ ((enableAjax env req).doesCookies = true ↔ req.headerValue "Cookie".toList ≠ []) := by
  refine ⟨rfl, rfl, rfl, rfl, rfl, rfl, rfl, rfl, rfl, rfl, rfl, rfl, rfl, rfl, rfl, rfl, ?_⟩
  show (!(req.headerValue "Cookie".toList).isEmpty) = true ↔ _
  simp [List.isEmpty_iff]

end WtEnv

